import Mathlib

/-!
Verification of the HELM run-materialization engine
(`magnet/backends/helm/materialize_helm_run.py`).

The Python module is embedded shallowly:

* Python strings are sequences of code points; the string primitives used by
  the module (`split(sep)`, `split(sep, 1)`, `strip()`, `in`, `replace`,
  lexicographic `<`) are implemented here by structural recursion over
  `List Char`, matching Python semantics code point by code point.
  (`strip()` here removes the ASCII whitespace characters recognised by
  `Char.isWhitespace`; the module only ever strips spaces around descriptor
  tokens, so the exotic Python whitespace classes are irrelevant.)
* Python dicts that map token keys to values are association lists with the
  dict update semantics (inserting an existing key overwrites its value in
  place, a new key is appended at the end).
* Values parsed from JSON files are a `JVal` tree; a file that the module
  tries to read is `FileRead`: `absent`, `unreadable` (raises inside
  `try`/`except`), or `content v`.
* Filesystem-dependent functions take the relevant slice of filesystem state
  as an explicit argument and return the observable effects as a value.
-/

/-- A token value in a run-entry description: either a string value from
`key=value`, or the Python literal `True` stored for a bare flag token. -/
inductive TokVal where
  | str (s : String)
  | flag
  deriving DecidableEq

/-- A Python dict from token keys to token values, as an ordered
association list with unique keys. -/
abbrev TokenDict := List (String × TokVal)

/-- Python dict update `d[k] = v`: overwrite the value in place if the key is
present, otherwise append the new binding at the end. -/
def dictInsert : TokenDict → String → TokVal → TokenDict
  | [], k, v => [(k, v)]
  | (k0, v0) :: rest, k, v =>
    if k0 = k then (k0, v) :: rest else (k0, v0) :: dictInsert rest k v

/-- Python dict lookup `d.get(k)`. -/
def dictGet : TokenDict → String → Option TokVal
  | [], _ => none
  | (k0, v0) :: rest, k => if k0 = k then some v0 else dictGet rest k

/-- Python `s.split(sep)` for a one-character separator: split at every
occurrence, keeping empty pieces (`"".split(sep) == [""]`). -/
def chSplit (sep : Char) : List Char → List (List Char)
  | [] => [[]]
  | c :: rest =>
    if c = sep then [] :: chSplit sep rest
    else
      match chSplit sep rest with
      | [] => [[c]]
      | g :: gs => (c :: g) :: gs

/-- Python `s.split(sep, 1)` for a one-character separator, as the pair of
the part before and after the first occurrence (the module only calls it
after checking `sep in s`; if the separator is absent the whole string is
returned on the left). -/
def chSplitOnce (sep : Char) : List Char → List Char × List Char
  | [] => ([], [])
  | c :: rest =>
    if c = sep then ([], rest)
    else
      let p := chSplitOnce sep rest
      (c :: p.1, p.2)

/-- Python `s.strip()`: drop leading and trailing whitespace. -/
def chStrip (l : List Char) : List Char :=
  ((l.dropWhile Char.isWhitespace).reverse.dropWhile Char.isWhitespace).reverse

/-- The split `chSplit` lifted to `String`. -/
def strSplitAll (sep : Char) (s : String) : List String :=
  (chSplit sep s.data).map String.mk

/-- The split `chSplitOnce` lifted to `String`. -/
def strSplitOnce (sep : Char) (s : String) : String × String :=
  let p := chSplitOnce sep s.data
  (String.mk p.1, String.mk p.2)

/-- The strip `chStrip` lifted to `String`. -/
def strStrip (s : String) : String :=
  String.mk (chStrip s.data)

/-- Python `c in s` for a single character. -/
def strContainsChar (s : String) (c : Char) : Bool :=
  s.data.contains c

/-- One iteration of the token-parsing loop in `parse_run_entry_description`:
process one comma-separated part (skip blank parts, split `key=value` on the
first `=`, store bare tokens as flags). -/
def parse_token_part (d : TokenDict) (part0 : String) : TokenDict :=
  let part := strStrip part0
  if part = "" then d
  else if strContainsChar part '=' then
    let kv := strSplitOnce '=' part
    dictInsert d (strStrip kv.1) (.str (strStrip kv.2))
  else
    dictInsert d part .flag

/-- The token-parsing loop of `parse_run_entry_description` over the
comma-separated parts. -/
def parse_tokens (parts : List String) : TokenDict :=
  parts.foldl parse_token_part []

/-- Embeds `parse_run_entry_description(desc)`: split `"<benchmark>:k1=v1,..."` into
the benchmark name and the token dict.  `none` models the `ValueError`
raised when no `:` is present or the benchmark segment is empty. -/
def parse_run_entry_description (desc : String) : Option (String × TokenDict) :=
  if strContainsChar desc ':' then
    let p := strSplitOnce ':' desc
    let bench := strStrip p.1
    if bench = "" then none
    else
      let rest := strStrip p.2
      some (bench, if rest = "" then [] else parse_tokens (strSplitAll ',' rest))
  else none

/-- Python `model.replace('/', '_')` (single-character pattern and
replacement, hence a code-point-wise map). -/
def strReplaceSlashUnderscore (s : String) : String :=
  String.mk (s.data.map (fun c => if c = '/' then '_' else c))

/-- Embeds `canonicalize_requested_tokens(tokens)`: if a `model` token exists and is
a string, replace `/` with `_` in its value; all other tokens untouched. -/
def canonicalize_requested_tokens (tokens : TokenDict) : TokenDict :=
  match dictGet tokens "model" with
  | some (.str m) => dictInsert tokens "model" (.str (strReplaceSlashUnderscore m))
  | _ => tokens

/-- Embeds `_split_run_dir_tokens(run_dir_name)`: split a candidate directory
basename into its benchmark segment and the list of stripped, non-blank
comma-separated tokens; a name with no `:` yields `("", [])`. -/
def split_run_dir_tokens (run_dir_name : String) : String × List String :=
  if strContainsChar run_dir_name ':' then
    let p := strSplitOnce ':' run_dir_name
    let rest := strStrip p.2
    (strStrip p.1, ((strSplitAll ',' rest).map strStrip).filter (fun t => t ≠ ""))
  else ("", [])

/-- Render one requested token the way the on-disk naming scheme spells it:
`key=value` for string values, the bare key for flag tokens. -/
def renderToken (kv : String × TokVal) : String :=
  match kv.2 with
  | .str v => kv.1 ++ "=" ++ v
  | .flag => kv.1

/-- The list of required token strings built by both
`run_dir_matches_requested` and `match_score`. -/
def requiredTokens (req_tokens : TokenDict) : List String :=
  req_tokens.map renderToken

/-- Embeds `run_dir_matches_requested(run_dir_name, requested_desc)`: the candidate
namespace must equal the requested namespace and every requested token
(canonicalized, rendered) must appear in the candidate's token list.
`none` models the `ValueError` propagated from parsing `requested_desc`. -/
def run_dir_matches_requested (run_dir_name requested_desc : String) : Option Bool :=
  match parse_run_entry_description requested_desc with
  | none => none
  | some (req_bench, req_tokens0) =>
    let req_tokens := canonicalize_requested_tokens req_tokens0
    let cand := split_run_dir_tokens run_dir_name
    if cand.1 ≠ req_bench then some false
    else some ((requiredTokens req_tokens).all (fun t => cand.2.contains t))

/-- The candidate tokens that were not requested (the `extra` list computed
by `match_score`); `[]` when the requested descriptor does not parse (in
`match_score` that case raises instead). -/
def extra_tokens (run_dir_name requested_desc : String) : List String :=
  match parse_run_entry_description requested_desc with
  | none => []
  | some (_, req_tokens0) =>
    let required := requiredTokens (canonicalize_requested_tokens req_tokens0)
    (split_run_dir_tokens run_dir_name).2.filter (fun t => !required.contains t)

/-- Embeds `match_score(run_dir_name, requested_desc)`: `(0, 0, name)` for an exact
string match, otherwise `(1, number of extra tokens, name)`; lower is
better under Python tuple comparison.  `none` models the `ValueError`
propagated from parsing `requested_desc`. -/
def match_score (run_dir_name requested_desc : String) : Option (Nat × Nat × String) :=
  if run_dir_name = requested_desc then some (0, 0, run_dir_name)
  else
    match parse_run_entry_description requested_desc with
    | none => none
    | some _ => some (1, (extra_tokens run_dir_name requested_desc).length, run_dir_name)

/-- Total wrapper around `match_score` used as the sort key inside
`find_best_precomputed_run`; the fallback value is unreachable there because
a `ValueError` from parsing would already have propagated while the
candidate list was being filtered. -/
def score (run_dir_name requested_desc : String) : Nat × Nat × String :=
  (match_score run_dir_name requested_desc).getD (1, 0, run_dir_name)

/-- Python lexicographic `<` on strings as code-point sequences. -/
def chLt : List Char → List Char → Bool
  | [], [] => false
  | [], _ :: _ => true
  | _ :: _, [] => false
  | a :: as, b :: bs => if a < b then true else if b < a then false else chLt as bs

/-- Python `s < t` on strings. -/
def strLt (s t : String) : Bool :=
  chLt s.data t.data

/-- Python `<=` on score triples (tuple comparison: first component, then
second, then lexicographic string comparison). -/
def scoreLe (x y : Nat × Nat × String) : Bool :=
  if x.1 < y.1 then true
  else if y.1 < x.1 then false
  else if x.2.1 < y.2.1 then true
  else if y.2.1 < x.2.1 then false
  else !strLt y.2.2 x.2.2

/-- Python `<` on score triples. -/
def scoreLt (x y : Nat × Nat × String) : Bool :=
  !scoreLe y x

-- Sanity checks against the module's doctests.
example : parse_run_entry_description "mmlu:subject=philosophy,model=openai/gpt2" =
    some ("mmlu", [("subject", .str "philosophy"), ("model", .str "openai/gpt2")]) := by decide
example : parse_run_entry_description "ifeval:model=amazon_nova-premier-v1:0" =
    some ("ifeval", [("model", .str "amazon_nova-premier-v1:0")]) := by decide
example : parse_run_entry_description "nocolon" = none := by decide
example : canonicalize_requested_tokens [("model", .str "openai/gpt2"), ("subject", .str "philosophy")] =
    [("model", .str "openai_gpt2"), ("subject", .str "philosophy")] := by decide
example : split_run_dir_tokens "mmlu:subject=philosophy,method=multiple_choice_joint,model=openai_gpt2" =
    ("mmlu", ["subject=philosophy", "method=multiple_choice_joint", "model=openai_gpt2"]) := by decide
example : run_dir_matches_requested
    "mmlu:subject=philosophy,method=multiple_choice_joint,model=openai_gpt2"
    "mmlu:subject=philosophy,model=openai/gpt2" = some true := by decide
example : run_dir_matches_requested
    "mmlu:subject=anatomy,method=multiple_choice_joint,model=openai_gpt2"
    "mmlu:subject=philosophy,model=openai/gpt2" = some false := by decide
example : run_dir_matches_requested
    "ifeval:model=openai_gpt2"
    "mmlu:subject=philosophy,model=openai/gpt2" = some false := by decide
example : scoreLt (score "mmlu:subject=philosophy,model=openai_gpt2"
      "mmlu:subject=philosophy,model=openai/gpt2")
    (score "mmlu:subject=philosophy,method=multiple_choice_joint,model=openai_gpt2"
      "mmlu:subject=philosophy,model=openai/gpt2") = true := by decide

mutual
/-- A JSON value as loaded by `kwutil.Json.load` (a Python object tree). -/
inductive JVal where
  | null
  | boolean (b : Bool)
  | num (n : Int)
  | str (s : String)
  | arr (xs : JArr)
  | obj (kvs : JObj)
  deriving DecidableEq
/-- A JSON array. -/
inductive JArr where
  | nil
  | cons (hd : JVal) (tl : JArr)
  deriving DecidableEq
/-- A JSON object (a Python dict with unique string keys, in order). -/
inductive JObj where
  | nil
  | cons (k : String) (v : JVal) (tl : JObj)
  deriving DecidableEq
end

/-- View a JSON array as a Lean list. -/
def JArr.toList : JArr → List JVal
  | .nil => []
  | .cons x xs => x :: xs.toList

/-- Python `d[k]` / `k in d` on a JSON object (keys are unique). -/
def JObj.lookup : JObj → String → Option JVal
  | .nil, _ => none
  | .cons k0 v0 tl, k => if k0 = k then some v0 else tl.lookup k

/-- The state of one on-disk file as seen by a single read attempt:
missing, present but failing to load, or loaded as a JSON value. -/
inductive FileRead where
  | absent
  | unreadable
  | content (v : JVal)
  deriving DecidableEq

/-- The slice of a HELM run directory that
`magnet/backends/helm/materialize_helm_run.py` inspects: its basename, a
path identity, which of the three required output files exist, and the state
of `per_instance_stats.json`. -/
structure RunDir where
  name : String
  path : String
  has_run_spec : Bool
  has_scenario_state : Bool
  has_stats : Bool
  per_instance_stats : FileRead
  deriving DecidableEq

/-- True when `per_instance_stats.json` exists on disk. -/
def RunDir.has_per_instance_stats (rd : RunDir) : Bool :=
  rd.per_instance_stats != .absent

/-- Embeds `is_complete_run_dir(run_dir, require_per_instance_stats)`:
`run_spec.json`, `scenario_state.json` and `stats.json` must exist, plus
`per_instance_stats.json` when required. -/
def is_complete_run_dir (rd : RunDir) (require_per_instance_stats : Bool) : Bool :=
  rd.has_run_spec && rd.has_scenario_state && rd.has_stats &&
    (!require_per_instance_stats || rd.has_per_instance_stats)

/-- Looks up `item['instance_id']` when `item` is a dict containing that key. -/
def instanceIdOf (item : JVal) : Option JVal :=
  match item with
  | .obj kvs => kvs.lookup "instance_id"
  | _ => none

/-- The key under which Python's `set` stores a JSON-loaded value: `None`,
numbers and strings hash to themselves, a boolean is equal (and hashes
equal) to its integer value (`True == 1`, `False == 0`), and a list or dict
is unhashable — `set(...)` raises `TypeError` on it, modelled as `none`.
(JSON numbers are carried as integers throughout this model; the module
never computes with them.) -/
def pySetKey : JVal → Option JVal
  | .null => some .null
  | .boolean b => some (.num (if b then 1 else 0))
  | .num n => some (.num n)
  | .str s => some (.str s)
  | .arr _ => none
  | .obj _ => none

/-- The canonical keys of `set(ids)`: `none` when any element is unhashable
(the `TypeError` raised by `set`). -/
def pySetKeys : List JVal → Option (List JVal)
  | [] => some []
  | v :: rest =>
    match pySetKey v, pySetKeys rest with
    | some k, some ks => some (k :: ks)
    | _, _ => none

/-- Embeds `infer_num_instances(run_dir)` as a function of the state of
`run_dir/per_instance_stats.json`: when the file exists and loads as a list,
return `len(set(ids))` over the `instance_id` values of its dict records —
the number of identifiers distinct under Python `==` — falling back to the
raw list length when no record carries an `instance_id`.  The whole body
sits in a blanket `try`/`except Exception: pass`, so the `TypeError` that
`set(ids)` raises on an unhashable identifier also ends in `return None`,
as does every other case (file absent, unreadable, or not a list). -/
def infer_num_instances (per_instance_stats : FileRead) : Option Nat :=
  match per_instance_stats with
  | .absent => none
  | .unreadable => none
  | .content data =>
    match data with
    | .arr xs =>
      let ids := xs.toList.filterMap instanceIdOf
      if ids ≠ [] then
        match pySetKeys ids with
        | some keys => some keys.dedup.length
        | none => none
      else some xs.toList.length
    | _ => none

/-- Modelled from the spec (§4.6): "count distinct evaluated items by
reading the optional per-item statistics file and counting unique item
identifiers referenced within it". -/
def spec_unique_instance_id_count (data : JVal) : Nat :=
  match data with
  | .arr xs => (xs.toList.filterMap instanceIdOf).dedup.length
  | _ => 0

/-- True when `data` is a JSON list (`isinstance(data, list)`). -/
def JVal.isArr : JVal → Bool
  | .arr _ => true
  | _ => false

/-- The per-candidate body of the loop in `find_best_precomputed_run`: does
this run directory survive the completeness check, the token-subset match,
and the optional instance-count filter?  `none` models the `ValueError`
propagated from parsing the requested descriptor. -/
def candidate_passes (requested_desc : String) (max_eval_instances : Option Nat)
    (require_per_instance_stats : Bool) (rd : RunDir) : Option Bool :=
  if !is_complete_run_dir rd require_per_instance_stats then some false
  else
    match run_dir_matches_requested rd.name requested_desc with
    | none => none
    | some false => some false
    | some true =>
      match max_eval_instances with
      | none => some true
      | some m =>
        match infer_num_instances rd.per_instance_stats with
        | none => some true
        | some n => some (decide (n = m))

/-- The filtering loop of `find_best_precomputed_run`: keep the candidates
that pass, in discovery order; `none` models a propagated `ValueError`. -/
def collect_candidates (requested_desc : String) (max_eval_instances : Option Nat)
    (require_per_instance_stats : Bool) : List RunDir → Option (List RunDir)
  | [] => some []
  | rd :: rest =>
    match candidate_passes requested_desc max_eval_instances require_per_instance_stats rd with
    | none => none
    | some true =>
      (collect_candidates requested_desc max_eval_instances require_per_instance_stats rest).map
        (rd :: ·)
    | some false =>
      collect_candidates requested_desc max_eval_instances require_per_instance_stats rest

/-- The ordering in which `find_best_precomputed_run` ranks candidates:
by `match_score` under Python tuple comparison. -/
def candLE (requested_desc : String) (c1 c2 : RunDir) : Prop :=
  scoreLe (score c1.name requested_desc) (score c2.name requested_desc) = true

instance (requested_desc : String) : DecidableRel (candLE requested_desc) :=
  fun _ _ => inferInstanceAs (Decidable (_ = true))

/-- Embeds `find_best_precomputed_run(precomputed_roots, requested_desc, ...)` as a
function of the run directories discovered under the roots, in discovery
order: filter the candidates, sort them by `match_score` (a stable ascending
sort, as Python's `list.sort`), and return the first, or `None` when nothing
survived.  The outer `none` models a propagated `ValueError`. -/
def find_best_precomputed_run (cands : List RunDir) (requested_desc : String)
    (max_eval_instances : Option Nat) (require_per_instance_stats : Bool) :
    Option (Option RunDir) :=
  match collect_candidates requested_desc max_eval_instances require_per_instance_stats cands with
  | none => none
  | some cs => some ((cs.insertionSort (candLE requested_desc)).head?)

-- Sanity checks for the discovery-side helpers.
example : infer_num_instances (.content (.arr (.cons (.obj (.cons "instance_id" (.str "id3") .nil))
    (.cons (.obj (.cons "instance_id" (.str "id3") .nil)) .nil)))) = some 1 := by decide
example : infer_num_instances (.content (.arr .nil)) = some 0 := by decide
example : infer_num_instances .absent = none := by decide
example : infer_num_instances (.content (.obj .nil)) = none := by decide

/-- The `mode` configuration value. -/
inductive Mode where
  | reuse_only
  | compute_if_missing
  | force_recompute
  deriving DecidableEq

/-- The `materialize` configuration value. -/
inductive MaterializeKind where
  | symlink
  | copy
  deriving DecidableEq

/-- The `status` field of the manifest. -/
inductive Status where
  | reused
  | computed
  | missing
  | error
  deriving DecidableEq

/-- The configuration surface of `MaterializeHelmRunConfig` that the control
flow of `main` depends on (`run_entry`, `suite` and `out_dpath` are modelled
as present: invocations missing them exit before any behaviour modelled
here; `precomputed_roots` enters only through its truthiness and through the
run directories discovered under it). -/
structure Config where
  run_entry : String
  suite : String
  precomputed_roots_given : Bool
  max_eval_instances : Option Nat
  require_per_instance_stats : Bool
  mode : Mode
  materialize : MaterializeKind
  num_threads : Nat
  deriving DecidableEq

/-- The part of the filesystem state that one invocation of
`MaterializeHelmRunConfig.main` reads: whether the sentinel (`DONE`) file
exists, the state of the manifest file, and the complete run directories
discoverable under the precomputed roots, in discovery order. -/
structure World where
  doneExists : Bool
  manifestFile : FileRead
  cands : List RunDir
  deriving DecidableEq

/-- The fields of the freshly built manifest dict that the claims are about
(the full dict also records the rest of the configuration, the output path
and a timestamp). -/
structure Manifest where
  requested_run_entry : String
  requested_mode : Mode
  status : Status
  reuse : Option String
  computed : Option String
  deriving DecidableEq

/-- An observable filesystem effect of one invocation of `main`, in program
order. -/
inductive Event where
  | deleteDone
  | searchRoots
  | materializeSymlink (run_name : String)
  | materializeCopy (run_name : String)
  | writeManifest (st : Status)
  | writeDone
  | invokeHelm (cmd : List String)
  deriving DecidableEq

/-- The value a completed invocation of `main` returns. -/
inductive Ret where
  | loadedManifest (v : JVal)
  | syntheticDone
  | manifest (m : Manifest)
  deriving DecidableEq

/-- How one invocation of `main` terminates: a normal return, or one of the
exceptions it can raise. -/
inductive Outcome where
  | returns (r : Ret)
  | sysExit
  | valueError
  | typeError
  deriving DecidableEq

/-- The signature of `run_helm` (its parameter names in order); none of its
parameters has a default value. -/
def run_helm_parameters : List String :=
  ["requested_desc", "suite", "out_dpath", "max_eval_instances", "num_threads", "extra_args"]

/-- The keyword arguments `MaterializeHelmRunConfig.main` passes in its call
to `run_helm` (the `extra_args=config.extra_helm_args` line is commented
out in the source). -/
def main_run_helm_call_keywords : List String :=
  ["requested_desc", "suite", "out_dpath", "max_eval_instances", "num_threads"]

/-- The command line `run_helm` builds for the external process. -/
def run_helm_cmd (requested_desc suite : String) (max_eval_instances : Option Nat)
    (num_threads : Option Nat) (extra_args : List String) : List String :=
  ["helm-run", "--run-entries", requested_desc, "--suite", suite] ++
    (match max_eval_instances with
     | some m => ["--max-eval-instances", toString m]
     | none => []) ++
    (match num_threads with
     | some t => ["--num-threads", toString t]
     | none => []) ++
    extra_args

/-- Embeds `ub.cmd(...).check_returncode()` inside `run_helm`: a zero exit status
is success, any other exit status raises (no retry). -/
def run_helm_check_returncode (exit_code : Nat) : Except Unit Unit :=
  if exit_code = 0 then .ok () else .error ()

/-- The effects `main` performs before resolving reuse: deleting a stale
sentinel under `force_recompute`, then running the search over the
precomputed roots unless recomputing is forced or no roots were given. -/
def main_prelude (config : Config) (w : World) : List Event :=
  (if config.mode == .force_recompute && w.doneExists then [.deleteDone] else []) ++
    (if config.mode != .force_recompute && config.precomputed_roots_given then
      [.searchRoots] else [])

/-- The `match` variable of `main`: the result of the reuse search when it
runs, `some none` (no match) when the search is skipped. -/
def main_matchres (config : Config) (w : World) : Option (Option RunDir) :=
  if config.mode != .force_recompute && config.precomputed_roots_given then
    find_best_precomputed_run w.cands config.run_entry config.max_eval_instances
      config.require_per_instance_stats
  else some none

/-- Embeds `MaterializeHelmRunConfig.main`, as a function of the configuration and
of the filesystem state it reads, returning how the invocation terminates
together with the ordered filesystem effects it performs.

Control flow, mirroring the source: if the sentinel exists and the mode is
not `force_recompute`, return the loaded manifest (or the minimal
`{"status": "done", ...}` dict when the manifest file is absent or fails to
load) without touching anything.  Otherwise delete a stale sentinel when
forcing recompute, search the precomputed roots unless forcing recompute or
no roots were given, and on a match materialize it and write the `reused`
manifest followed by the sentinel.  With no match, `reuse_only` writes the
`missing` manifest and raises `SystemExit`; every other mode reaches the
`run_helm(...)` call, which raises `TypeError` before any subprocess runs,
because `run_helm` has a required `extra_args` parameter that the call site
does not pass (the argument is commented out).  The `computed`, `error` and
post-compute branches of the source are therefore unreachable. -/
def MaterializeHelmRunConfig.main (config : Config) (w : World) : Outcome × List Event :=
  if w.doneExists && config.mode != .force_recompute then
    match w.manifestFile with
    | .content v => (.returns (.loadedManifest v), [])
    | _ => (.returns .syntheticDone, [])
  else
    match main_matchres config w with
    | none => (.valueError, main_prelude config w)
    | some (some m) =>
      (.returns (.manifest
        { requested_run_entry := config.run_entry
          requested_mode := config.mode
          status := .reused
          reuse := some m.name
          computed := none }),
       main_prelude config w ++
         [if config.materialize == .symlink then Event.materializeSymlink m.name
          else Event.materializeCopy m.name] ++ [.writeManifest .reused, .writeDone])
    | some none =>
      if config.mode == .reuse_only then
        (.sysExit, main_prelude config w ++ [.writeManifest .missing])
      else
        (.typeError, main_prelude config w)

/-- The state of the destination path of `ensure_symlink`, plus whether its
parent directory exists. -/
inductive PathState where
  | absent
  | file
  | directory
  | symlink (target : String)
  deriving DecidableEq

/-- The slice of filesystem state `ensure_symlink` touches. -/
structure LinkState where
  parentExists : Bool
  dst : PathState
  deriving DecidableEq

/-- An observable effect of one `ensure_symlink` call, in program order. -/
inductive LinkEvent where
  | mkdirParents
  | removeDst
  | createLink
  deriving DecidableEq

/-- Embeds `ensure_symlink(src, dst)` as a transformer of the destination's state:
always ensure the parent directory; a symlink already targeting `src` is
left alone; any other existing destination (file, directory, or symlink to
somewhere else, broken or not) is deleted; finally the link is created. -/
def ensure_symlink (src : String) (st : LinkState) : LinkState × List LinkEvent :=
  let st1 : LinkState := { st with parentExists := true }
  match st1.dst with
  | .symlink t =>
    if t = src then (st1, [.mkdirParents])
    else ({ st1 with dst := .symlink src }, [.mkdirParents, .removeDst, .createLink])
  | .absent => ({ st1 with dst := .symlink src }, [.mkdirParents, .createLink])
  | _ => ({ st1 with dst := .symlink src }, [.mkdirParents, .removeDst, .createLink])

theorem dictGet_dictInsert_self (d : TokenDict) (k : String) (v : TokVal) :
    dictGet (dictInsert d k v) k = some v := by
  induction d with
  | nil => simp [dictInsert, dictGet]
  | cons p rest ih =>
    obtain ⟨k0, v0⟩ := p
    by_cases h : k0 = k
    · simp [dictInsert, dictGet, h]
    · simp [dictInsert, dictGet, h, ih]

theorem dictGet_dictInsert_ne (d : TokenDict) (k k' : String) (v : TokVal) (h : k' ≠ k) :
    dictGet (dictInsert d k v) k' = dictGet d k' := by
  have hk : ¬ k = k' := fun hk => h hk.symm
  induction d with
  | nil => simp [dictInsert, dictGet, hk]
  | cons p rest ih =>
    obtain ⟨k0, v0⟩ := p
    by_cases h0 : k0 = k
    · subst h0
      simp [dictInsert, dictGet, hk]
    · simp [dictInsert, dictGet, h0, ih]

theorem dictInsert_dictInsert (d : TokenDict) (k : String) (v w : TokVal) :
    dictInsert (dictInsert d k v) k w = dictInsert d k w := by
  induction d with
  | nil => simp [dictInsert]
  | cons p rest ih =>
    obtain ⟨k0, v0⟩ := p
    by_cases h : k0 = k
    · simp [dictInsert, h]
    · simp [dictInsert, h, ih]

theorem strReplaceSlashUnderscore_idem (s : String) :
    strReplaceSlashUnderscore (strReplaceSlashUnderscore s) = strReplaceSlashUnderscore s := by
  simp only [strReplaceSlashUnderscore, List.map_map]
  congr 1
  apply List.map_congr_left
  intro c _
  by_cases h : c = '/'
  · simp [h]
  · simp [h]

/-- C9: applying the model-token canonicalizer twice yields exactly the same
token dict as applying it once, and every token whose key is not `model`
keeps exactly the value it had. -/
theorem canonicalize_idempotent_preserves_other_tokens (t : TokenDict) :
    canonicalize_requested_tokens (canonicalize_requested_tokens t) =
      canonicalize_requested_tokens t ∧
    ∀ k, k ≠ "model" → dictGet (canonicalize_requested_tokens t) k = dictGet t k := by
  constructor
  · cases hm : dictGet t "model" with
    | none => simp [canonicalize_requested_tokens, hm]
    | some tv =>
      cases tv with
      | flag => simp [canonicalize_requested_tokens, hm]
      | str m =>
        conv_lhs => rw [canonicalize_requested_tokens]
        rw [show canonicalize_requested_tokens t =
            dictInsert t "model" (.str (strReplaceSlashUnderscore m)) by
          simp [canonicalize_requested_tokens, hm]]
        rw [dictGet_dictInsert_self]
        simp [dictInsert_dictInsert, strReplaceSlashUnderscore_idem]
  · intro k hk
    cases hm : dictGet t "model" with
    | none => simp [canonicalize_requested_tokens, hm]
    | some tv =>
      cases tv with
      | flag => simp [canonicalize_requested_tokens, hm]
      | str m =>
        simp [canonicalize_requested_tokens, hm, dictGet_dictInsert_ne _ _ _ _ hk]

theorem canonicalize_idempotent_preserves_other_tokens_witness :
    ("subject" : String) ≠ "model" ∧
    dictGet (canonicalize_requested_tokens
        [("model", .str "openai/gpt2"), ("subject", .str "philosophy")]) "subject" =
      dictGet [("model", TokVal.str "openai/gpt2"), ("subject", TokVal.str "philosophy")]
        "subject" :=
  ⟨by decide,
   (canonicalize_idempotent_preserves_other_tokens
      [("model", .str "openai/gpt2"), ("subject", .str "philosophy")]).2 "subject" (by decide)⟩

/-- The key under which one comma-separated part of a descriptor's parameter
list is stored by the token-parsing loop (`none` for a blank part, which the
loop skips). -/
def partKey (part0 : String) : Option String :=
  let part := strStrip part0
  if part = "" then none
  else if strContainsChar part '=' then some (strStrip (strSplitOnce '=' part).1)
  else some part

/-- The value under which one comma-separated part of a descriptor's
parameter list is stored by the token-parsing loop. -/
def partValue (part0 : String) : TokVal :=
  let part := strStrip part0
  if strContainsChar part '=' then .str (strStrip (strSplitOnce '=' part).2)
  else .flag

/-- The value carried by the last part of `parts` whose key is `k`
(`none` when no part has key `k`). -/
def lastValueFor (parts : List String) (k : String) : Option TokVal :=
  parts.foldl (fun acc p => if partKey p = some k then some (partValue p) else acc) none

theorem dictGet_parse_token_part (d : TokenDict) (p : String) (k : String) :
    dictGet (parse_token_part d p) k =
      if partKey p = some k then some (partValue p) else dictGet d k := by
  unfold parse_token_part partKey partValue
  by_cases h0 : strStrip p = ""
  · simp [h0]
  · by_cases h1 : strContainsChar (strStrip p) '='
    · simp only [h0, h1, if_false, if_true, Option.some.injEq]
      by_cases h2 : strStrip (strSplitOnce '=' (strStrip p)).1 = k
      · simp [h0, h1, h2, dictGet_dictInsert_self]
      · simp [h0, h1, h2, dictGet_dictInsert_ne _ _ _ _ (Ne.symm h2)]
    · simp only [h0, h1, if_false, if_true, Option.some.injEq]
      by_cases h2 : strStrip p = k
      · simp [h0, h1, h2, dictGet_dictInsert_self]
      · simp [h0, h1, h2, dictGet_dictInsert_ne _ _ _ _ (Ne.symm h2)]

theorem lastValueFor_step (parts : List String) (k : String) (a : Option TokVal) :
    parts.foldl (fun acc p => if partKey p = some k then some (partValue p) else acc) a =
      match lastValueFor parts k with
      | some v => some v
      | none => a := by
  induction parts generalizing a with
  | nil => simp [lastValueFor]
  | cons p rest ih =>
    rw [List.foldl_cons, ih]
    conv_rhs => rw [lastValueFor, List.foldl_cons,
      show rest.foldl (fun acc p => if partKey p = some k then some (partValue p) else acc)
          (if partKey p = some k then some (partValue p) else none) =
        match lastValueFor rest k with
        | some v => some v
        | none => (if partKey p = some k then some (partValue p) else none) from ih _]
    cases lastValueFor rest k with
    | some v => rfl
    | none =>
      by_cases hp : partKey p = some k
      · simp [hp]
      · simp [hp]

theorem dictGet_foldl_parse_token_part (parts : List String) (d : TokenDict) (k : String) :
    dictGet (parts.foldl parse_token_part d) k =
      match lastValueFor parts k with
      | some v => some v
      | none => dictGet d k := by
  induction parts generalizing d with
  | nil => simp [lastValueFor]
  | cons p rest ih =>
    rw [List.foldl_cons, ih, dictGet_parse_token_part]
    conv_rhs => rw [lastValueFor, List.foldl_cons,
      show rest.foldl (fun acc p => if partKey p = some k then some (partValue p) else acc)
          (if partKey p = some k then some (partValue p) else none) =
        match lastValueFor rest k with
        | some v => some v
        | none => (if partKey p = some k then some (partValue p) else none) from
        lastValueFor_step _ _ _]
    cases lastValueFor rest k with
    | some v => rfl
    | none =>
      by_cases hp : partKey p = some k
      · simp [hp]
      · simp [hp]

/-- C10: parsing a parameter list in which the same key occurs several times
succeeds, and the token dict ends up holding the value of the key's last
occurrence (earlier occurrences are silently overwritten). -/
theorem parse_duplicate_keys_last_wins :
    (∀ parts k, dictGet (parse_tokens parts) k = lastValueFor parts k) ∧
    parse_run_entry_description "mmlu:subject=a,subject=b,model=m" =
      some ("mmlu", [("subject", .str "b"), ("model", .str "m")]) := by
  constructor
  · intro parts k
    rw [parse_tokens, dictGet_foldl_parse_token_part]
    cases lastValueFor parts k with
    | some v => rfl
    | none => simp [dictGet]
  · decide

/-- C8: `ensure_symlink` is idempotent — after one call the destination is a
link to the source with its parent directory in place; a second identical
call changes nothing (and performs no removal or creation); a
correctly-targeted pre-existing link is left untouched, while any other
pre-existing destination is removed in full before the fresh link is
created. -/
theorem ensure_symlink_idempotent (src : String) (st : LinkState) :
    (ensure_symlink src (ensure_symlink src st).1).1 = (ensure_symlink src st).1 ∧
    (ensure_symlink src (ensure_symlink src st).1).2 = [.mkdirParents] ∧
    (ensure_symlink src st).1.dst = .symlink src ∧
    (ensure_symlink src st).1.parentExists = true ∧
    (st.dst = .symlink src → (ensure_symlink src st).2 = [.mkdirParents]) ∧
    (st.dst = .absent → (ensure_symlink src st).2 = [.mkdirParents, .createLink]) ∧
    (st.dst ≠ .symlink src → st.dst ≠ .absent →
      (ensure_symlink src st).2 = [.mkdirParents, .removeDst, .createLink]) := by
  obtain ⟨pe, dst⟩ := st
  cases dst with
  | symlink t =>
    by_cases h : t = src
    · subst h
      simp [ensure_symlink]
    · simp only [ensure_symlink]
      simp [h]
  | absent => simp [ensure_symlink]
  | file => simp [ensure_symlink]
  | directory => simp [ensure_symlink]

theorem ensure_symlink_idempotent_witness :
    (ensure_symlink "runs/a" { parentExists := false, dst := .file }).2 =
      [.mkdirParents, .removeDst, .createLink] ∧
    (ensure_symlink "runs/a" { parentExists := true, dst := .symlink "runs/a" }).2 =
      [.mkdirParents] :=
  ⟨(ensure_symlink_idempotent "runs/a" { parentExists := false, dst := .file }).2.2.2.2.2.2
      (by decide) (by decide),
   (ensure_symlink_idempotent "runs/a"
      { parentExists := true, dst := .symlink "runs/a" }).2.2.2.2.1 (by decide)⟩

/-- C6 counterexample: a readable per-item statistics file holding the JSON
list `[{}]` makes `infer_num_instances` return the raw record count `1`,
not the number of unique instance identifiers referenced in the file,
which is `0`. -/
theorem infer_num_instances_raw_count_counterexample :
    infer_num_instances (.content (.arr (.cons (.obj .nil) .nil))) = some 1 ∧
    spec_unique_instance_id_count (.arr (.cons (.obj .nil) .nil)) = 0 := by decide

/-- C6 (amended): when the file is readable and parses to a list in which at
least one record carries an `instance_id`, the inferencer returns the number
of identifiers distinct under Python equality (a boolean identified with its
integer value) provided every identifier is hashable, and `None` when any
identifier is an unhashable array or object (the `TypeError` raised by
`set()` is swallowed by the blanket handler); when the list has no
identifier-bearing record it falls back to the raw list length; and it
returns `None` — never zero — when the file is absent, unreadable, or not a
list. -/
theorem infer_num_instances_characterization :
    (∀ xs keys, xs.toList.filterMap instanceIdOf ≠ [] →
      pySetKeys (xs.toList.filterMap instanceIdOf) = some keys →
      infer_num_instances (.content (.arr xs)) = some keys.dedup.length) ∧
    (∀ xs, xs.toList.filterMap instanceIdOf ≠ [] →
      pySetKeys (xs.toList.filterMap instanceIdOf) = none →
      infer_num_instances (.content (.arr xs)) = none) ∧
    (∀ xs, xs.toList.filterMap instanceIdOf = [] →
      infer_num_instances (.content (.arr xs)) = some xs.toList.length) ∧
    infer_num_instances .absent = none ∧
    infer_num_instances .unreadable = none ∧
    (∀ v, v.isArr = false → infer_num_instances (.content v) = none) := by
  refine ⟨?_, ?_, ?_, rfl, rfl, ?_⟩
  · intro xs keys h hk
    simp [infer_num_instances, h, hk]
  · intro xs h hk
    simp [infer_num_instances, h, hk]
  · intro xs h
    simp [infer_num_instances, h]
  · intro v hv
    cases v <;> simp_all [infer_num_instances, JVal.isArr]

theorem infer_num_instances_characterization_witness :
    infer_num_instances (.content (.arr (.cons (.obj (.cons "instance_id" (.num 1) .nil))
        (.cons (.obj (.cons "instance_id" (.boolean true) .nil)) .nil)))) =
      some ([JVal.num 1, JVal.num 1].dedup.length) ∧
    infer_num_instances (.content (.arr (.cons (.obj (.cons "instance_id" (.obj .nil) .nil))
        .nil))) = none ∧
    infer_num_instances (.content (.arr .nil)) = some (JArr.nil.toList.length) ∧
    infer_num_instances (.content (.obj .nil)) = none :=
  ⟨infer_num_instances_characterization.1 _ [JVal.num 1, JVal.num 1] (by decide) (by decide),
   infer_num_instances_characterization.2.1 _ (by decide) (by decide),
   infer_num_instances_characterization.2.2.1 .nil (by decide),
   infer_num_instances_characterization.2.2.2.2.2 (.obj .nil) (by decide)⟩

/-- C4: for a well-formed requested descriptor, a candidate basename is
eligible exactly when its namespace equals the requested namespace and every
requested token — rendered as `key=value` or bare key, after model-token
canonicalization — appears verbatim among the candidate's tokens; the
condition never mentions the candidate's extra tokens, so extras cannot
disqualify a match. -/
theorem run_dir_match_iff_token_subset
    (name desc bench : String) (toks : TokenDict)
    (hparse : parse_run_entry_description desc = some (bench, toks)) :
    run_dir_matches_requested name desc = some true ↔
      ((split_run_dir_tokens name).1 = bench ∧
        ∀ t ∈ requiredTokens (canonicalize_requested_tokens toks),
          t ∈ (split_run_dir_tokens name).2) := by
  unfold run_dir_matches_requested
  rw [hparse]
  by_cases hb : (split_run_dir_tokens name).1 = bench
  · simp [hb, List.all_eq_true]
  · simp [hb]

theorem run_dir_match_iff_token_subset_witness :
    run_dir_matches_requested
      "mmlu:subject=philosophy,method=multiple_choice_joint,model=openai_gpt2"
      "mmlu:subject=philosophy,model=openai/gpt2" = some true :=
  (run_dir_match_iff_token_subset
      "mmlu:subject=philosophy,method=multiple_choice_joint,model=openai_gpt2"
      "mmlu:subject=philosophy,model=openai/gpt2" "mmlu"
      [("subject", .str "philosophy"), ("model", .str "openai/gpt2")]
      (by decide)).mpr (by decide)

theorem chLt_irrefl (l : List Char) : chLt l l = false := by
  induction l with
  | nil => rfl
  | cons c rest ih => simp [chLt, ih]

theorem chLt_asymm (a b : List Char) (h : chLt a b = true) : chLt b a = false := by
  induction a generalizing b with
  | nil =>
    cases b with
    | nil => simp [chLt] at h
    | cons d ds => rfl
  | cons c cs ih =>
    cases b with
    | nil => simp [chLt] at h
    | cons d ds =>
      by_cases hcd : c < d
      · have hdc : ¬ d < c := lt_asymm hcd
        simp [chLt, hcd, hdc]
      · by_cases hdc : d < c
        · simp [chLt, hcd, hdc] at h
        · simp only [chLt, if_neg hcd, if_neg hdc] at h
          simp [chLt, hcd, hdc, ih _ h]

theorem chLt_eq_of_not (a b : List Char) (h1 : chLt a b = false) (h2 : chLt b a = false) :
    a = b := by
  induction a generalizing b with
  | nil =>
    cases b with
    | nil => rfl
    | cons d ds => simp [chLt] at h1
  | cons c cs ih =>
    cases b with
    | nil => simp [chLt] at h2
    | cons d ds =>
      by_cases hcd : c < d
      · simp [chLt, hcd] at h1
      · by_cases hdc : d < c
        · simp [chLt, hdc] at h2
        · have : c = d := le_antisymm (not_lt.mp hdc) (not_lt.mp hcd)
          subst this
          simp only [chLt, if_neg hcd, if_neg hdc] at h1 h2
          rw [ih _ h1 h2]

theorem chLt_trans (a b c : List Char) (hab : chLt a b = true) (hbc : chLt b c = true) :
    chLt a c = true := by
  induction a generalizing b c with
  | nil =>
    cases b with
    | nil => simp [chLt] at hab
    | cons y bs =>
      cases c with
      | nil => simp [chLt] at hbc
      | cons z cs => rfl
  | cons x as ih =>
    cases b with
    | nil => simp [chLt] at hab
    | cons y bs =>
      cases c with
      | nil => simp [chLt] at hbc
      | cons z cs =>
        by_cases hxy : x < y
        · by_cases hyz : y < z
          · simp [chLt, lt_trans hxy hyz]
          · by_cases hzy : z < y
            · simp [chLt, hyz, hzy] at hbc
            · have : y = z := le_antisymm (not_lt.mp hzy) (not_lt.mp hyz)
              subst this
              simp [chLt, hxy]
        · by_cases hyx : y < x
          · simp [chLt, hxy, hyx] at hab
          · have hxyeq : x = y := le_antisymm (not_lt.mp hyx) (not_lt.mp hxy)
            subst hxyeq
            simp only [chLt, if_neg hxy, if_neg hyx] at hab
            by_cases hyz : x < z
            · simp [chLt, hyz]
            · by_cases hzy : z < x
              · simp [chLt, hyz, hzy] at hbc
              · simp only [chLt, if_neg hyz, if_neg hzy] at hbc ⊢
                exact ih _ _ hab hbc

theorem scoreLe_refl (x : Nat × Nat × String) : scoreLe x x = true := by
  simp [scoreLe, strLt, chLt_irrefl]

theorem scoreLe_iff (x y : Nat × Nat × String) :
    scoreLe x y = true ↔
      x.1 < y.1 ∨ (x.1 = y.1 ∧
        (x.2.1 < y.2.1 ∨ (x.2.1 = y.2.1 ∧ strLt y.2.2 x.2.2 = false))) := by
  unfold scoreLe
  by_cases h1 : x.1 < y.1
  · simp [h1]
  · by_cases h2 : y.1 < x.1
    · have hne : ¬ x.1 = y.1 := by omega
      simp [h1, h2, hne]
    · have he : x.1 = y.1 := by omega
      by_cases h3 : x.2.1 < y.2.1
      · simp [h1, h2, he, h3]
      · by_cases h4 : y.2.1 < x.2.1
        · have hne2 : ¬ x.2.1 = y.2.1 := by omega
          simp [h1, h2, h3, h4, he, hne2]
        · have he2 : x.2.1 = y.2.1 := by omega
          simp [h1, h2, h3, h4, he, he2, Bool.not_eq_true']

theorem scoreLe_total (x y : Nat × Nat × String) :
    scoreLe x y = true ∨ scoreLe y x = true := by
  rw [scoreLe_iff, scoreLe_iff]
  rcases Nat.lt_trichotomy x.1 y.1 with h | h | h
  · exact Or.inl (Or.inl h)
  · rcases Nat.lt_trichotomy x.2.1 y.2.1 with h2 | h2 | h2
    · exact Or.inl (Or.inr ⟨h, Or.inl h2⟩)
    · rcases Bool.eq_false_or_eq_true (chLt y.2.2.data x.2.2.data) with hs | hs
      · exact Or.inr (Or.inr ⟨h.symm, Or.inr ⟨h2.symm, by
          simp [strLt, chLt_asymm _ _ hs]⟩⟩)
      · exact Or.inl (Or.inr ⟨h, Or.inr ⟨h2, by simpa [strLt] using hs⟩⟩)
    · exact Or.inr (Or.inr ⟨h.symm, Or.inl h2⟩)
  · exact Or.inr (Or.inl h)

theorem scoreLe_trans (x y z : Nat × Nat × String) (h1 : scoreLe x y = true)
    (h2 : scoreLe y z = true) : scoreLe x z = true := by
  rw [scoreLe_iff] at h1 h2 ⊢
  rcases h1 with h1 | ⟨e1, h1'⟩
  · rcases h2 with h2 | ⟨e2, _⟩
    · exact Or.inl (lt_trans h1 h2)
    · exact Or.inl (e2 ▸ h1)
  · rcases h2 with h2 | ⟨e2, h2'⟩
    · exact Or.inl (e1 ▸ h2)
    · refine Or.inr ⟨e1.trans e2, ?_⟩
      rcases h1' with h1' | ⟨f1, s1⟩
      · rcases h2' with h2' | ⟨f2, _⟩
        · exact Or.inl (lt_trans h1' h2')
        · exact Or.inl (f2 ▸ h1')
      · rcases h2' with h2' | ⟨f2, s2⟩
        · exact Or.inl (f1 ▸ h2')
        · refine Or.inr ⟨f1.trans f2, ?_⟩
          simp only [strLt] at s1 s2 ⊢
          by_cases hc : chLt z.2.2.data x.2.2.data = true
          · rcases Bool.eq_false_or_eq_true (chLt x.2.2.data y.2.2.data) with hxy | hxy
            · exact absurd (chLt_trans _ _ _ hc hxy) (by simp [s2])
            · have hEq : x.2.2.data = y.2.2.data := chLt_eq_of_not _ _ hxy s1
              rw [hEq] at hc
              exact absurd hc (by simp [s2])
          · simpa using hc

instance (requested_desc : String) : IsTotal RunDir (candLE requested_desc) :=
  ⟨fun _ _ => scoreLe_total _ _⟩

instance (requested_desc : String) : IsTrans RunDir (candLE requested_desc) :=
  ⟨fun _ _ _ => scoreLe_trans _ _ _⟩

theorem mem_collect_candidates (desc : String) (maxN : Option Nat) (reqStats : Bool)
    (cands cs : List RunDir)
    (h : collect_candidates desc maxN reqStats cands = some cs) (c : RunDir) :
    c ∈ cs ↔ (c ∈ cands ∧ candidate_passes desc maxN reqStats c = some true) := by
  induction cands generalizing cs with
  | nil =>
    simp only [collect_candidates, Option.some.injEq] at h
    subst h
    simp
  | cons rd rest ih =>
    simp only [collect_candidates] at h
    cases hp : candidate_passes desc maxN reqStats rd with
    | none => rw [hp] at h; simp at h
    | some b =>
      rw [hp] at h
      cases b with
      | true =>
        simp only [Option.map_eq_some'] at h
        obtain ⟨cs', hcs', rfl⟩ := h
        rw [List.mem_cons, List.mem_cons, ih cs' hcs']
        constructor
        · rintro (rfl | ⟨ha, hb⟩)
          · exact ⟨Or.inl rfl, hp⟩
          · exact ⟨Or.inr ha, hb⟩
        · rintro ⟨rfl | ha, hb⟩
          · exact Or.inl rfl
          · exact Or.inr ⟨ha, hb⟩
      | false =>
        have h' : collect_candidates desc maxN reqStats rest = some cs := h
        rw [List.mem_cons]
        constructor
        · intro hcc
          have h2 := (ih cs h').mp hcc
          exact ⟨Or.inr h2.1, h2.2⟩
        · rintro ⟨hca | hca, hb⟩
          · rw [hca, hp] at hb
            simp at hb
          · exact (ih cs h').mpr ⟨hca, hb⟩

theorem find_best_is_minimum (cands : List RunDir) (desc : String) (maxN : Option Nat)
    (reqStats : Bool) (best : RunDir)
    (h : find_best_precomputed_run cands desc maxN reqStats = some (some best)) :
    best ∈ cands ∧ candidate_passes desc maxN reqStats best = some true ∧
      ∀ c ∈ cands, candidate_passes desc maxN reqStats c = some true →
        scoreLe (score best.name desc) (score c.name desc) = true := by
  unfold find_best_precomputed_run at h
  cases hc : collect_candidates desc maxN reqStats cands with
  | none => rw [hc] at h; simp at h
  | some cs =>
    rw [hc] at h
    simp only [Option.some.injEq] at h
    have hperm := List.perm_insertionSort (candLE desc) cs
    have hsorted := List.sorted_insertionSort (candLE desc) cs
    cases hsl : cs.insertionSort (candLE desc) with
    | nil => rw [hsl] at h; simp at h
    | cons b tl =>
      rw [hsl] at h
      simp only [List.head?_cons, Option.some.injEq] at h
      subst h
      rw [hsl] at hperm hsorted
      have hmem : ∀ c ∈ cs, c = b ∨ c ∈ tl := by
        intro c hcc
        have : c ∈ b :: tl := hperm.symm.subset hcc
        simpa using this
      have hmin : ∀ c ∈ tl, candLE desc b c := (List.sorted_cons.mp hsorted).1
      have hbest_cs : b ∈ cs := hperm.subset (by simp)
      have hbest := (mem_collect_candidates desc maxN reqStats cands cs hc b).mp hbest_cs
      refine ⟨hbest.1, hbest.2, ?_⟩
      intro c hc1 hc2
      have hccs : c ∈ cs := (mem_collect_candidates desc maxN reqStats cands cs hc c).mpr ⟨hc1, hc2⟩
      rcases hmem c hccs with rfl | htl
      · exact scoreLe_refl _
      · exact hmin c htl

theorem score_self (desc : String) : score desc desc = (0, 0, desc) := by
  simp [score, match_score]

theorem score_of_ne (n desc : String) (h : n ≠ desc) :
    score n desc = (1, (extra_tokens n desc).length, n) := by
  unfold score match_score
  rw [if_neg h]
  cases hp : parse_run_entry_description desc with
  | none => simp [extra_tokens, hp]
  | some x => simp

/-- C5: selection is a deterministic total order — an exact full-name match
to the requested descriptor text scores strictly ahead of every other name;
among non-exact names, strictly fewer extra tokens scores strictly ahead;
at equal extra-token counts the order is exactly the lexicographic order of
the full candidate names; and `find_best_precomputed_run` returns a
candidate that passes the filters and whose score is minimal among all
candidates that pass, so the result is a function of the discovered
filesystem state alone. -/
theorem match_selection_deterministic_minimum :
    (∀ desc n, n ≠ desc → scoreLt (score desc desc) (score n desc) = true) ∧
    (∀ desc n1 n2, n1 ≠ desc → n2 ≠ desc →
      (extra_tokens n1 desc).length < (extra_tokens n2 desc).length →
      scoreLt (score n1 desc) (score n2 desc) = true) ∧
    (∀ desc n1 n2, n1 ≠ desc → n2 ≠ desc →
      (extra_tokens n1 desc).length = (extra_tokens n2 desc).length →
      (scoreLe (score n1 desc) (score n2 desc) = true ↔ strLt n2 n1 = false)) ∧
    (∀ cands desc maxN reqStats best,
      find_best_precomputed_run cands desc maxN reqStats = some (some best) →
      best ∈ cands ∧ candidate_passes desc maxN reqStats best = some true ∧
        ∀ c ∈ cands, candidate_passes desc maxN reqStats c = some true →
          scoreLe (score best.name desc) (score c.name desc) = true) := by
  refine ⟨?_, ?_, ?_, fun cands desc maxN reqStats best h =>
    find_best_is_minimum cands desc maxN reqStats best h⟩
  · intro desc n hn
    unfold scoreLt
    rw [score_self, score_of_ne n desc hn, Bool.not_eq_true']
    rw [Bool.eq_false_iff]
    intro hcon
    rw [scoreLe_iff] at hcon
    simp at hcon
  · intro desc n1 n2 h1 h2 hlen
    unfold scoreLt
    rw [score_of_ne n1 desc h1, score_of_ne n2 desc h2, Bool.not_eq_true']
    rw [Bool.eq_false_iff]
    intro hcon
    rw [scoreLe_iff] at hcon
    simp at hcon
    omega
  · intro desc n1 n2 h1 h2 hlen
    rw [score_of_ne n1 desc h1, score_of_ne n2 desc h2, scoreLe_iff]
    simp [hlen]

/-- The requested descriptor used in the selection witness. -/
def exampleRequestedDesc : String := "mmlu:subject=philosophy,model=openai/gpt2"

/-- A complete candidate run directory whose name carries one extra token. -/
def exampleRunDirWithExtras : RunDir :=
  { name := "mmlu:subject=philosophy,method=multiple_choice_joint,model=openai_gpt2"
    path := "roots/a/benchmark_output/runs/v1/with-extras"
    has_run_spec := true
    has_scenario_state := true
    has_stats := true
    per_instance_stats := .content (.arr .nil) }

/-- A complete candidate run directory whose name carries no extra token. -/
def exampleRunDirCanonical : RunDir :=
  { name := "mmlu:subject=philosophy,model=openai_gpt2"
    path := "roots/b/benchmark_output/runs/v1/canonical"
    has_run_spec := true
    has_scenario_state := true
    has_stats := true
    per_instance_stats := .content (.arr .nil) }

theorem match_selection_deterministic_minimum_witness :
    scoreLe (score exampleRunDirCanonical.name exampleRequestedDesc)
      (score exampleRunDirWithExtras.name exampleRequestedDesc) = true ∧
    scoreLt (score exampleRequestedDesc exampleRequestedDesc)
      (score exampleRunDirCanonical.name exampleRequestedDesc) = true :=
  ⟨(match_selection_deterministic_minimum.2.2.2
      [exampleRunDirWithExtras, exampleRunDirCanonical] exampleRequestedDesc none true
      exampleRunDirCanonical (by decide)).2.2
      exampleRunDirWithExtras (by decide) (by decide),
   match_selection_deterministic_minimum.1 exampleRequestedDesc
      exampleRunDirCanonical.name (by decide)⟩

/-- C1 (code bug): an invocation that finds no reusable match in a mode that
allows computing never reaches the external process — `run_helm` declares
`extra_args` as a required parameter, the call in
`MaterializeHelmRunConfig.main` does not pass it, and Python therefore
raises `TypeError` at the call site; the trace shows no helm invocation.
The command `run_helm` would build, and its non-zero-exit check, are also
evaluated here for reference. -/
theorem run_helm_call_missing_required_argument :
    "extra_args" ∈ run_helm_parameters ∧
    "extra_args" ∉ main_run_helm_call_keywords ∧
    MaterializeHelmRunConfig.main
      { run_entry := "mmlu:subject=philosophy,model=openai/gpt2"
        suite := "my-suite"
        precomputed_roots_given := false
        max_eval_instances := some 10
        require_per_instance_stats := true
        mode := .compute_if_missing
        materialize := .symlink
        num_threads := 1 }
      { doneExists := false, manifestFile := .absent, cands := [] } = (.typeError, []) ∧
    run_helm_cmd "mmlu:subject=philosophy,model=openai/gpt2" "my-suite" (some 10) (some 1) [] =
      ["helm-run", "--run-entries", "mmlu:subject=philosophy,model=openai/gpt2",
       "--suite", "my-suite", "--max-eval-instances", "10", "--num-threads", "1"] ∧
    run_helm_check_returncode 0 = .ok () ∧
    run_helm_check_returncode 1 = .error () := by
  refine ⟨by decide, by decide, by decide, ?_, rfl, rfl⟩
  decide

theorem writeDone_not_mem_prelude (cfg : Config) (w : World) :
    Event.writeDone ∉ main_prelude cfg w := by
  unfold main_prelude
  split <;> split <;> simp

theorem invokeHelm_not_mem_prelude (cfg : Config) (w : World) (c : List String) :
    Event.invokeHelm c ∉ main_prelude cfg w := by
  unfold main_prelude
  split <;> split <;> simp

/-- C2: whenever an invocation of `main` reaches a terminal success (a
returned manifest with status `reused` or `computed`), its effect trace ends
with the manifest write immediately followed by the sentinel write; and the
sentinel is written only on such a terminal success — never on the missing,
error, or exception paths. -/
theorem manifest_written_before_sentinel (cfg : Config) (w : World) :
    (∀ m, (MaterializeHelmRunConfig.main cfg w).1 = .returns (.manifest m) →
      (m.status = .reused ∨ m.status = .computed) →
      ∃ pre, (MaterializeHelmRunConfig.main cfg w).2 =
        pre ++ [.writeManifest m.status, .writeDone]) ∧
    (Event.writeDone ∈ (MaterializeHelmRunConfig.main cfg w).2 →
      ∃ m, (MaterializeHelmRunConfig.main cfg w).1 = .returns (.manifest m) ∧
        (m.status = .reused ∨ m.status = .computed) ∧
        ∃ pre, (MaterializeHelmRunConfig.main cfg w).2 =
          pre ++ [.writeManifest m.status, .writeDone]) := by
  unfold MaterializeHelmRunConfig.main
  by_cases h1 : (w.doneExists && cfg.mode != Mode.force_recompute) = true
  · rw [if_pos h1]
    cases w.manifestFile with
    | content v => exact ⟨fun m hm _ => by simp at hm, fun hw => by simp at hw⟩
    | absent => exact ⟨fun m hm _ => by simp at hm, fun hw => by simp at hw⟩
    | unreadable => exact ⟨fun m hm _ => by simp at hm, fun hw => by simp at hw⟩
  · rw [if_neg h1]
    cases hm : main_matchres cfg w with
    | none =>
      exact ⟨fun m hmm _ => by simp at hmm,
        fun hw => absurd hw (writeDone_not_mem_prelude cfg w)⟩
    | some mr =>
      cases mr with
      | some m =>
        constructor
        · intro m' hm' _
          injection hm' with h2
          injection h2 with h3
          subst h3
          exact ⟨_, rfl⟩
        · intro _
          exact ⟨_, rfl, Or.inl rfl, _, rfl⟩
      | none =>
        by_cases h2 : (cfg.mode == Mode.reuse_only) = true
        · rw [if_pos h2]
          constructor
          · intro m hmm _
            simp at hmm
          · intro hw
            rw [List.mem_append] at hw
            rcases hw with hw | hw
            · exact absurd hw (writeDone_not_mem_prelude cfg w)
            · simp at hw
        · rw [if_neg h2]
          exact ⟨fun m hmm _ => by simp at hmm,
            fun hw => absurd hw (writeDone_not_mem_prelude cfg w)⟩

/-- C3: when the sentinel exists and the mode is not `force_recompute`, the
invocation performs no effect — no root search, no materialization, no
computation — and returns the previously written manifest, or the minimal
synthetic record when the manifest file is absent or unreadable; when the
sentinel is absent, the invocation behaves identically whatever the
manifest file holds (it resolves or computes afresh) and never returns the
short-circuit values. -/
theorem sentinel_gating (cfg : Config) (w : World) :
    (w.doneExists = true → cfg.mode ≠ .force_recompute →
      (MaterializeHelmRunConfig.main cfg w).2 = [] ∧
      (∀ v, w.manifestFile = .content v →
        (MaterializeHelmRunConfig.main cfg w).1 = .returns (.loadedManifest v)) ∧
      ((w.manifestFile = .absent ∨ w.manifestFile = .unreadable) →
        (MaterializeHelmRunConfig.main cfg w).1 = .returns .syntheticDone)) ∧
    (w.doneExists = false →
      MaterializeHelmRunConfig.main cfg w =
        MaterializeHelmRunConfig.main cfg { w with manifestFile := .absent } ∧
      (∀ v, (MaterializeHelmRunConfig.main cfg w).1 ≠ .returns (.loadedManifest v)) ∧
      (MaterializeHelmRunConfig.main cfg w).1 ≠ .returns .syntheticDone) := by
  constructor
  · intro hd hm
    have h1 : (w.doneExists && cfg.mode != Mode.force_recompute) = true := by
      simp [hd, hm]
    unfold MaterializeHelmRunConfig.main
    rw [if_pos h1]
    cases hf : w.manifestFile with
    | content v =>
      refine ⟨rfl, fun v' hv => ?_, fun hv => ?_⟩
      · injection hv with h
        subst h
        rfl
      · rcases hv with hv | hv <;> simp at hv
    | absent =>
      exact ⟨rfl, fun v' hv => by simp at hv, fun _ => rfl⟩
    | unreadable =>
      exact ⟨rfl, fun v' hv => by simp at hv, fun _ => rfl⟩
  · intro hd
    have h1 : ¬ ((w.doneExists && cfg.mode != Mode.force_recompute) = true) := by
      simp [hd]
    have h1' : ¬ ((World.mk w.doneExists FileRead.absent w.cands).doneExists &&
        cfg.mode != Mode.force_recompute) = true := by
      simp [hd]
    refine ⟨?_, ?_, ?_⟩
    · unfold MaterializeHelmRunConfig.main
      rw [if_neg h1, if_neg h1']
      rfl
    · intro v
      unfold MaterializeHelmRunConfig.main
      rw [if_neg h1]
      cases main_matchres cfg w with
      | none => simp
      | some mr =>
        cases mr with
        | some m => simp
        | none => by_cases hro : cfg.mode = Mode.reuse_only <;> simp [hro]
    · unfold MaterializeHelmRunConfig.main
      rw [if_neg h1]
      cases main_matchres cfg w with
      | none => simp
      | some mr =>
        cases mr with
        | some m => simp
        | none => by_cases hro : cfg.mode = Mode.reuse_only <;> simp [hro]

/-- C7: in `reuse_only` mode, an invocation that gets past the sentinel
check and for which the search over the supplied roots produces no match
(including the case of no roots at all) writes the manifest with status
`missing` as its last effect and raises `SystemExit`, with no sentinel
write and no invocation of the external computation anywhere in its
trace. -/
theorem reuse_only_missing_manifest (cfg : Config) (w : World)
    (hdone : w.doneExists = false) (hmode : cfg.mode = .reuse_only)
    (hnone : cfg.precomputed_roots_given = false ∨
      find_best_precomputed_run w.cands cfg.run_entry cfg.max_eval_instances
        cfg.require_per_instance_stats = some none) :
    (MaterializeHelmRunConfig.main cfg w).1 = .sysExit ∧
    (∃ pre, (MaterializeHelmRunConfig.main cfg w).2 = pre ++ [.writeManifest .missing]) ∧
    (∀ c, Event.invokeHelm c ∉ (MaterializeHelmRunConfig.main cfg w).2) ∧
    Event.writeDone ∉ (MaterializeHelmRunConfig.main cfg w).2 := by
  have h1 : ¬ ((w.doneExists && cfg.mode != Mode.force_recompute) = true) := by
    simp [hdone]
  have hmr : main_matchres cfg w = some none := by
    unfold main_matchres
    by_cases hroots : cfg.precomputed_roots_given = true
    · rcases hnone with h | h
      · rw [hroots] at h
        simp at h
      · rw [if_pos (by simp [hmode, hroots])]
        exact h
    · rw [if_neg (by simp [hroots])]
  unfold MaterializeHelmRunConfig.main
  rw [if_neg h1, hmr, if_pos (by simp [hmode])]
  refine ⟨rfl, ⟨main_prelude cfg w, rfl⟩, ?_, ?_⟩
  · intro c hc
    rw [List.mem_append] at hc
    rcases hc with hc | hc
    · exact invokeHelm_not_mem_prelude cfg w c hc
    · simp at hc
  · intro hc
    rw [List.mem_append] at hc
    rcases hc with hc | hc
    · exact writeDone_not_mem_prelude cfg w hc
    · simp at hc

/-- The configuration used by the orchestrator witnesses: a request for
`exampleRequestedDesc` in `compute_if_missing` mode with one search root. -/
def exampleReuseConfig : Config :=
  { run_entry := exampleRequestedDesc
    suite := "my-suite"
    precomputed_roots_given := true
    max_eval_instances := none
    require_per_instance_stats := true
    mode := .compute_if_missing
    materialize := .symlink
    num_threads := 1 }

/-- A world in which the sentinel is absent and the roots hold one complete
matching run directory. -/
def exampleReuseWorld : World :=
  { doneExists := false, manifestFile := .absent, cands := [exampleRunDirCanonical] }

theorem manifest_written_before_sentinel_witness :
    ∃ pre, (MaterializeHelmRunConfig.main exampleReuseConfig exampleReuseWorld).2 =
      pre ++ [Event.writeManifest Status.reused, Event.writeDone] :=
  (manifest_written_before_sentinel exampleReuseConfig exampleReuseWorld).1
    { requested_run_entry := exampleRequestedDesc
      requested_mode := .compute_if_missing
      status := .reused
      reuse := some exampleRunDirCanonical.name
      computed := none }
    (by decide) (Or.inl rfl)

/-- A world in which the sentinel exists alongside a readable manifest. -/
def exampleDoneWorld : World :=
  { doneExists := true, manifestFile := .content (.str "previous-manifest"), cands := [] }

theorem sentinel_gating_witness :
    (MaterializeHelmRunConfig.main exampleReuseConfig exampleDoneWorld).2 = [] ∧
    (MaterializeHelmRunConfig.main exampleReuseConfig exampleDoneWorld).1 =
      .returns (.loadedManifest (.str "previous-manifest")) :=
  ⟨((sentinel_gating exampleReuseConfig exampleDoneWorld).1 rfl (by decide)).1,
   ((sentinel_gating exampleReuseConfig exampleDoneWorld).1 rfl (by decide)).2.1 _ rfl⟩

/-- The configuration used by the `reuse_only` witness: no roots given. -/
def exampleReuseOnlyConfig : Config :=
  { exampleReuseConfig with mode := .reuse_only, precomputed_roots_given := false }

theorem reuse_only_missing_manifest_witness :
    (MaterializeHelmRunConfig.main exampleReuseOnlyConfig
        { doneExists := false, manifestFile := .absent, cands := [] }).1 = .sysExit ∧
    ∃ pre, (MaterializeHelmRunConfig.main exampleReuseOnlyConfig
        { doneExists := false, manifestFile := .absent, cands := [] }).2 =
      pre ++ [Event.writeManifest Status.missing] :=
  have h := reuse_only_missing_manifest exampleReuseOnlyConfig
    { doneExists := false, manifestFile := .absent, cands := [] } rfl rfl (Or.inl rfl)
  ⟨h.1, h.2.1⟩
